import Mathlib

/-!
Shallow embedding of the double-entry ledger's transaction-posting core
(`TransactionsService`, `TransactionsRepository`, `AccountsRepository`,
the zod input schema and the HTTP posting route).

Modelling conventions:
* JS `number` amounts and balances are modelled as rationals (ℚ).
* The JS `Map<string, number>` used during balance calculation is modelled
  as an association list `List (String × ℚ)`; `Map.set` on an existing key
  keeps the key's position and `Map.entries` iterates in insertion order,
  which the model's `mapSet` reproduces.
* The SQLite store is modelled as a `LedgerState` holding the accounts
  table and the transactions table (a transaction row together with its
  entry rows).  `id TEXT PRIMARY KEY` on accounts is carried as a `Nodup`
  hypothesis where a theorem needs it.
* `randomUUID` is modelled by an id generator `gen : ℕ → String` supplied
  by the environment (the spec assumes a collision-free generator);
  creating one transaction consumes `gen 0` for the transaction id and
  `gen (i+1)` for the i-th entry id, used only where the input omits ids.
* Thrown validation errors are modelled as `Except` values; since the
  service throws before the repository's atomic commit runs, an error
  leaves the state unchanged.
-/

namespace DoubleLedger

/-- Direction enum: the two string tokens `debit` / `credit`. -/
inductive Direction where
  | debit
  | credit
deriving DecidableEq, Repr

/-- A row of the `accounts` table (`AccountModel`). -/
structure AccountModel where
  id : String
  name : String
  balance : ℚ
  direction : Direction
deriving DecidableEq, Repr

/-- One element of `CreateTransactionInput.entries` (`TransactionEntryInput`). -/
structure TransactionEntryInput where
  id : Option String
  account_id : String
  amount : ℚ
  direction : Direction
deriving DecidableEq, Repr

/-- The body of a `POST /transactions` request (`CreateTransactionInput`). -/
structure CreateTransactionInput where
  id : Option String
  name : Option String
  entries : List TransactionEntryInput
deriving DecidableEq, Repr

/-- A persisted entry row (`TransactionEntryModel`). -/
structure TransactionEntryModel where
  id : String
  transactionId : String
  accountId : String
  amount : ℚ
  direction : Direction
deriving DecidableEq, Repr

/-- A persisted transaction together with its entry rows (`TransactionModel`).
The `date` field is a wall-clock timestamp and is not modelled. -/
structure TransactionModel where
  id : String
  name : String
  entries : List TransactionEntryModel
deriving DecidableEq, Repr

/-- One element of a transaction response's `entries`. -/
structure TransactionEntryResponse where
  id : String
  account_id : String
  amount : ℚ
  direction : Direction
deriving DecidableEq, Repr

/-- The success payload of `createTransaction` (`TransactionResponse`). -/
structure TransactionResponse where
  id : String
  name : String
  entries : List TransactionEntryResponse
deriving DecidableEq, Repr

/-- The validation errors `TransactionsService` throws:
`Transaction entries must balance. Debits: d, Credits: c` and
`Account with id a not found`, as structured values. -/
inductive LedgerError where
  | unbalanced (debitTotal creditTotal : ℚ)
  | accountNotFound (accountId : String)
deriving DecidableEq, Repr

/-- The whole persistent store: the `accounts` table and the
`transactions` table with each row's entry rows attached. -/
structure LedgerState where
  accounts : List AccountModel
  transactions : List TransactionModel
deriving DecidableEq, Repr

/-- `AccountsRepository.findById` / `AccountsService.getAccount`:
`SELECT ... FROM accounts WHERE id = ?` returning the first matching row. -/
def getAccount (accounts : List AccountModel) (id : String) : Option AccountModel :=
  accounts.find? (fun a => a.id == id)

/-- `Map.get`: value of the first (and, for a JS Map, only) binding of `k`. -/
def mapGet (m : List (String × ℚ)) (k : String) : Option ℚ :=
  (m.find? (fun p => p.1 == k)).map Prod.snd

/-- `Map.set`: update in place when the key is present (keeping its
position, as a JS Map does), append a new binding otherwise. -/
def mapSet (m : List (String × ℚ)) (k : String) (v : ℚ) : List (String × ℚ) :=
  match m with
  | [] => [(k, v)]
  | p :: rest => if p.1 = k then (k, v) :: rest else p :: mapSet rest k v

/-- The loop of `validateEntriesBalance`: accumulate
`(debitTotal, creditTotal)` over the entries in input order. -/
def entryTotals (entries : List TransactionEntryInput) : ℚ × ℚ :=
  entries.foldl
    (fun t e =>
      match e.direction with
      | .debit => (t.1 + e.amount, t.2)
      | .credit => (t.1, t.2 + e.amount))
    (0, 0)

/-- The fixed floating-point tolerance `0.001` of `validateEntriesBalance`. -/
def tolerance : ℚ := 1 / 1000

/-- `Math.abs`. -/
def absQ (x : ℚ) : ℚ := if x < 0 then -x else x

/-- `TransactionsService.validateEntriesBalance`: throw `unbalanced`
carrying both totals when `Math.abs(debitTotal - creditTotal) > 0.001`. -/
def validateEntriesBalance (entries : List TransactionEntryInput) :
    Except LedgerError Unit :=
  let t := entryTotals entries
  if absQ (t.1 - t.2) > tolerance then .error (.unbalanced t.1 t.2) else .ok ()

/-- The loop of `TransactionsService.calculateBalanceUpdates`: for each
entry in input order, look the account up (throwing `accountNotFound` on
the first miss), take the running balance from the map or else the stored
balance, add the amount when the entry's direction matches the account's
direction and subtract it otherwise, and write the result back. -/
def calcLoop (accounts : List AccountModel) :
    List TransactionEntryInput → List (String × ℚ) →
    Except LedgerError (List (String × ℚ))
  | [], m => .ok m
  | e :: rest, m =>
    match getAccount accounts e.account_id with
    | none => .error (.accountNotFound e.account_id)
    | some account =>
      let currentBalance := (mapGet m e.account_id).getD account.balance
      let newBalance :=
        if e.direction = account.direction then currentBalance + e.amount
        else currentBalance - e.amount
      calcLoop accounts rest (mapSet m e.account_id newBalance)

/-- `TransactionsService.calculateBalanceUpdates`: run the loop on an
empty map and return the map's entries in insertion order. -/
def calculateBalanceUpdates (accounts : List AccountModel)
    (entries : List TransactionEntryInput) :
    Except LedgerError (List (String × ℚ)) :=
  calcLoop accounts entries []

/-- `TransactionEntryModel.fromInput`: keep a supplied id, otherwise use
the freshly generated one; copy account id, amount and direction; record
the owning transaction's id. -/
def TransactionEntryModel.fromInput (freshId : String)
    (input : TransactionEntryInput) (transactionId : String) :
    TransactionEntryModel :=
  { id := input.id.getD freshId
    transactionId := transactionId
    accountId := input.account_id
    amount := input.amount
    direction := input.direction }

/-- The entry-model list of `TransactionModel.fromInput`: map
`TransactionEntryModel.fromInput` over the input entries in order, the
i-th entry consuming the generator's value at `i + 1`. -/
def entryModelsFrom (gen : ℕ → String) (tid : String) :
    ℕ → List TransactionEntryInput → List TransactionEntryModel
  | _, [] => []
  | i, e :: rest =>
    TransactionEntryModel.fromInput (gen (i + 1)) e tid ::
      entryModelsFrom gen tid (i + 1) rest

/-- `TransactionModel.fromInput`: default the id to a fresh one and the
name to the empty string, and build the entry models in input order. -/
def TransactionModel.fromInput (gen : ℕ → String)
    (input : CreateTransactionInput) : TransactionModel :=
  let tid := input.id.getD (gen 0)
  { id := tid
    name := input.name.getD ""
    entries := entryModelsFrom gen tid 0 input.entries }

/-- `AccountsRepository.updateBalances`: for each update in order, run
`UPDATE accounts SET balance = ? WHERE id = ?`. -/
def updateBalances (accounts : List AccountModel)
    (updates : List (String × ℚ)) : List AccountModel :=
  updates.foldl
    (fun accs u =>
      accs.map (fun a => if a.id = u.1 then { a with balance := u.2 } else a))
    accounts

/-- `TransactionsRepository.createWithBalanceUpdates`: atomically insert
the transaction row and its entry rows and apply the balance updates. -/
def createWithBalanceUpdates (st : LedgerState) (t : TransactionModel)
    (updates : List (String × ℚ)) : LedgerState :=
  { accounts := updateBalances st.accounts updates
    transactions := st.transactions ++ [t] }

/-- `TransactionsService.createTransaction`: validate the balance, compute
the balance updates (this also checks every referenced account exists),
build the model, commit atomically, and format the response.  A thrown
error propagates before the commit, leaving the state unchanged. -/
def createTransaction (gen : ℕ → String) (st : LedgerState)
    (input : CreateTransactionInput) :
    LedgerState × Except LedgerError TransactionResponse :=
  match validateEntriesBalance input.entries with
  | .error e => (st, .error e)
  | .ok _ =>
    match calculateBalanceUpdates st.accounts input.entries with
    | .error e => (st, .error e)
    | .ok balanceUpdates =>
      let transaction := TransactionModel.fromInput gen input
      let st' := createWithBalanceUpdates st transaction balanceUpdates
      (st', .ok
        { id := transaction.id
          name := transaction.name
          entries := transaction.entries.map
            (fun e =>
              { id := e.id
                account_id := e.accountId
                amount := e.amount
                direction := e.direction }) })

/-- The issue kinds of `createTransactionSchema` relevant to the ledger:
the `min(2)` check on `entries` and the `positive()` check on amounts. -/
inductive SchemaIssue where
  | tooFewEntries
  | invalidEntry (index : ℕ)
deriving DecidableEq, Repr

/-- The `positive()` issues of the entries, one per entry whose amount is
not strictly positive, tagged with the entry's index. -/
def amountIssues : ℕ → List TransactionEntryInput → List SchemaIssue
  | _, [] => []
  | i, e :: rest =>
    (if e.amount ≤ 0 then [SchemaIssue.invalidEntry i] else []) ++
      amountIssues (i + 1) rest

/-- The ledger-relevant issues zod reports for a request body: a
`tooFewEntries` issue when `entries` has fewer than 2 elements, and an
`invalidEntry` issue for each entry whose amount is not strictly
positive. -/
def schemaIssues (input : CreateTransactionInput) : List SchemaIssue :=
  (if input.entries.length < 2 then [SchemaIssue.tooFewEntries] else []) ++
    amountIssues 0 input.entries

/-- Outcome of the `POST /transactions` route. -/
inductive PostOutcome where
  | badRequest (issues : List SchemaIssue)
  | validationFailed (e : LedgerError)
  | created (r : TransactionResponse)
deriving DecidableEq, Repr

/-- The `POST /transactions` handler of `transactionsApp`: when the zod
validator reports issues, answer 400 without touching the service or the
store; otherwise call `createTransaction`, answering 201 on success and
400 on a thrown validation error. -/
def handlePostTransaction (gen : ℕ → String) (st : LedgerState)
    (input : CreateTransactionInput) : LedgerState × PostOutcome :=
  if schemaIssues input ≠ [] then (st, .badRequest (schemaIssues input))
  else
    match createTransaction gen st input with
    | (st', .ok r) => (st', .created r)
    | (st', .error e) => (st', .validationFailed e)

/-- The response `createTransaction` formats from a saved transaction,
as built in the final return of `createTransaction`. -/
def formatResponse (t : TransactionModel) : TransactionResponse :=
  { id := t.id
    name := t.name
    entries := t.entries.map
      (fun e =>
        { id := e.id
          account_id := e.accountId
          amount := e.amount
          direction := e.direction }) }

/-- Spec-side definition (for the balance-delta claims): the signed sum of
an account's entries — an entry on the account's own side contributes
`+amount`, an entry on the other side contributes `-amount`. -/
def netEffect (k : String) (dir : Direction)
    (entries : List TransactionEntryInput) : ℚ :=
  ((entries.filter (fun e => e.account_id == k)).map
    (fun e => if e.direction = dir then e.amount else -e.amount)).sum

/-- Spec-side definition (for the ordering claim): the distinct account
ids of the entries, each at its first encounter, given the ids already
seen. -/
def encounterOrder (seen : List String) :
    List TransactionEntryInput → List String
  | [] => []
  | e :: rest =>
    if e.account_id ∈ seen then encounterOrder seen rest
    else e.account_id :: encounterOrder (e.account_id :: seen) rest

/-- Debit and credit totals of persisted entry rows, mirroring
`entryTotals` on the stored representation. -/
def modelTotals (entries : List TransactionEntryModel) : ℚ × ℚ :=
  entries.foldl
    (fun t e =>
      match e.direction with
      | .debit => (t.1 + e.amount, t.2)
      | .credit => (t.1, t.2 + e.amount))
    (0, 0)

/-- Proof-side: the running balance of account `k` (with direction `dir`)
obtained by scanning the entries in order from `b`, as the calculation
loop does for a single account. -/
def runBal (k : String) (dir : Direction) (b : ℚ)
    (entries : List TransactionEntryInput) : ℚ :=
  entries.foldl
    (fun b e =>
      if e.account_id = k then
        (if e.direction = dir then b + e.amount else b - e.amount)
      else b)
    b

/-- Proof-side: the value the last binding of `k` in an update list
carries, mirroring how sequential `UPDATE` statements leave the final
write in place. -/
def lastVal (updates : List (String × ℚ)) (k : String) : Option ℚ :=
  updates.foldl (fun acc u => if u.1 = k then some u.2 else acc) none

section MapLemmas

theorem mapGet_nil (k : String) : mapGet [] k = none := rfl

theorem mapGet_cons (p : String × ℚ) (rest : List (String × ℚ)) (k : String) :
    mapGet (p :: rest) k = if p.1 = k then some p.2 else mapGet rest k := by
  simp only [mapGet, List.find?]
  cases hbeq : p.1 == k with
  | true =>
    rw [beq_iff_eq] at hbeq
    simp [hbeq]
  | false =>
    have hne : p.1 ≠ k := by
      intro hcontra
      rw [hcontra, beq_self_eq_true] at hbeq
      exact absurd hbeq (by simp)
    simp [hne]

theorem mapGet_mapSet_self (m : List (String × ℚ)) (k : String) (v : ℚ) :
    mapGet (mapSet m k v) k = some v := by
  induction m with
  | nil => simp [mapSet, mapGet_cons]
  | cons p rest ih =>
    by_cases h : p.1 = k <;> simp [mapSet, h, mapGet_cons, ih]

theorem mapGet_mapSet_ne (m : List (String × ℚ)) (k k' : String) (v : ℚ)
    (h : k' ≠ k) : mapGet (mapSet m k v) k' = mapGet m k' := by
  have hks : k ≠ k' := Ne.symm h
  induction m with
  | nil => simp [mapSet, mapGet_cons, mapGet_nil, hks]
  | cons p rest ih =>
    by_cases hp : p.1 = k
    · simp [mapSet, hp, mapGet_cons, hks, hp.symm ▸ hks]
    · simp [mapSet, hp, mapGet_cons, ih]

theorem mapGet_isSome_iff_mem (m : List (String × ℚ)) (k : String) :
    (mapGet m k).isSome ↔ k ∈ m.map Prod.fst := by
  induction m with
  | nil => simp [mapGet_nil]
  | cons p rest ih =>
    by_cases h : p.1 = k
    · simp [mapGet_cons, h, ih]
    · simp [mapGet_cons, h, ih, Ne.symm h]

theorem mapGet_eq_none_iff (m : List (String × ℚ)) (k : String) :
    mapGet m k = none ↔ k ∉ m.map Prod.fst := by
  rw [← mapGet_isSome_iff_mem, Option.isSome_iff_exists]
  cases mapGet m k <;> simp

theorem keys_mapSet_mem (m : List (String × ℚ)) (k : String) (v : ℚ)
    (h : (mapGet m k).isSome) :
    (mapSet m k v).map Prod.fst = m.map Prod.fst := by
  induction m with
  | nil => simp [mapGet_nil] at h
  | cons p rest ih =>
    by_cases hp : p.1 = k
    · simp [mapSet, hp]
    · rw [mapGet_cons, if_neg hp] at h
      simp [mapSet, hp, ih h]

theorem keys_mapSet_new (m : List (String × ℚ)) (k : String) (v : ℚ)
    (h : mapGet m k = none) :
    (mapSet m k v).map Prod.fst = m.map Prod.fst ++ [k] := by
  induction m with
  | nil => simp [mapSet]
  | cons p rest ih =>
    by_cases hp : p.1 = k
    · rw [mapGet_cons, if_pos hp] at h
      exact absurd h (by simp)
    · rw [mapGet_cons, if_neg hp] at h
      simp [mapSet, hp, ih h]

end MapLemmas

section StoreLemmas

theorem getAccount_nil (k : String) : getAccount [] k = none := rfl

theorem getAccount_cons (a : AccountModel) (rest : List AccountModel)
    (k : String) :
    getAccount (a :: rest) k = if a.id = k then some a else getAccount rest k := by
  simp only [getAccount, List.find?]
  cases hbeq : a.id == k with
  | true =>
    rw [beq_iff_eq] at hbeq
    simp [hbeq]
  | false =>
    have hne : a.id ≠ k := by
      intro hcontra
      rw [hcontra, beq_self_eq_true] at hbeq
      exact absurd hbeq (by simp)
    simp [hne]

theorem getAccount_eq_some_id (accounts : List AccountModel) (k : String)
    (a : AccountModel) (h : getAccount accounts k = some a) : a.id = k := by
  induction accounts with
  | nil => simp [getAccount_nil] at h
  | cons b rest ih =>
    rw [getAccount_cons] at h
    by_cases hb : b.id = k
    · rw [if_pos hb] at h
      cases h
      exact hb
    · rw [if_neg hb] at h
      exact ih h

theorem getAccount_map_of_id (accounts : List AccountModel)
    (f : AccountModel → AccountModel) (hf : ∀ a, (f a).id = a.id)
    (k : String) :
    getAccount (accounts.map f) k = (getAccount accounts k).map f := by
  induction accounts with
  | nil => simp [getAccount_nil]
  | cons a rest ih =>
    by_cases ha : a.id = k
    · simp [getAccount_cons, hf, ha]
    · simp [getAccount_cons, hf, ha, ih]

theorem lastVal_foldl_acc (k : String) (updates : List (String × ℚ)) :
    ∀ acc : Option ℚ,
      updates.foldl (fun acc u => if u.1 = k then some u.2 else acc) acc =
        (lastVal updates k).elim acc some := by
  induction updates with
  | nil => intro acc; simp [lastVal]
  | cons u rest ih =>
    intro acc
    have hL : (u :: rest).foldl (fun acc u => if u.1 = k then some u.2 else acc) acc =
        rest.foldl (fun acc u => if u.1 = k then some u.2 else acc)
          (if u.1 = k then some u.2 else acc) := rfl
    have hR : lastVal (u :: rest) k =
        rest.foldl (fun acc u => if u.1 = k then some u.2 else acc)
          (if u.1 = k then some u.2 else none) := rfl
    rw [hL, hR, ih (if u.1 = k then some u.2 else acc),
      ih (if u.1 = k then some u.2 else none)]
    cases lastVal rest k with
    | none => by_cases hu : u.1 = k <;> simp [hu]
    | some v => simp

theorem lastVal_cons (u : String × ℚ) (rest : List (String × ℚ)) (k : String) :
    lastVal (u :: rest) k =
      (lastVal rest k).elim (if u.1 = k then some u.2 else none) some := by
  simp only [lastVal, List.foldl]
  exact lastVal_foldl_acc k rest _

theorem getAccount_updateBalances (updates : List (String × ℚ)) :
    ∀ (accounts : List AccountModel) (k : String),
      getAccount (updateBalances accounts updates) k =
        (getAccount accounts k).map
          (fun a => { a with balance := (lastVal updates k).getD a.balance }) := by
  induction updates with
  | nil =>
    intro accounts k
    simp only [updateBalances, List.foldl, lastVal, Option.getD]
    cases h : getAccount accounts k with
    | none => simp
    | some a => simp
  | cons u rest ih =>
    intro accounts k
    have hstep : updateBalances accounts (u :: rest) =
        updateBalances
          (accounts.map
            (fun a => if a.id = u.1 then { a with balance := u.2 } else a))
          rest := rfl
    rw [hstep, ih]
    have hid : ∀ a : AccountModel,
        ((fun a => if a.id = u.1 then { a with balance := u.2 } else a) a).id
          = a.id := by
      intro a
      by_cases h : a.id = u.1 <;> simp [h]
    rw [getAccount_map_of_id _ _ hid]
    cases hget : getAccount accounts k with
    | none => simp
    | some a =>
      have haid : a.id = k := getAccount_eq_some_id _ _ _ hget
      simp only [Option.map_some, Option.map_map]
      rw [lastVal_cons]
      cases hlv : lastVal rest k with
      | none =>
        by_cases hu : u.1 = k
        · have : a.id = u.1 := by rw [haid, hu]
          simp [Function.comp, this, hu]
        · have : a.id ≠ u.1 := by rw [haid]; exact fun h => hu h.symm
          simp [Function.comp, this, hu]
      | some v =>
        by_cases hu : a.id = u.1 <;> simp [Function.comp, hu]

theorem lastVal_eq_mapGet_of_nodup (updates : List (String × ℚ)) (k : String)
    (h : (updates.map Prod.fst).Nodup) : lastVal updates k = mapGet updates k := by
  induction updates with
  | nil => simp [lastVal, mapGet_nil]
  | cons u rest ih =>
    simp only [List.map, List.nodup_cons] at h
    rw [lastVal_cons, mapGet_cons, ih h.2]
    by_cases hu : u.1 = k
    · have : mapGet rest k = none := by
        rw [mapGet_eq_none_iff]
        rw [← hu]
        exact h.1
      rw [this, hu]
      simp
    · cases hr : mapGet rest k <;> simp [hu]

end StoreLemmas

section CalcLemmas

theorem calcLoop_ok_accounts (accounts : List AccountModel) :
    ∀ (entries : List TransactionEntryInput) (m out : List (String × ℚ)),
      calcLoop accounts entries m = .ok out →
      ∀ e ∈ entries, (getAccount accounts e.account_id).isSome := by
  intro entries
  induction entries with
  | nil =>
    intro m out h e he
    simp at he
  | cons e rest ih =>
    intro m out h e' he'
    rw [calcLoop] at h
    cases hga : getAccount accounts e.account_id with
    | none =>
      rw [hga] at h
      exact absurd h (by simp)
    | some a =>
      rw [hga] at h
      rcases List.mem_cons.mp he' with heq | hmem
      · rw [heq, hga]
        rfl
      · exact ih _ _ h e' hmem

theorem calcLoop_ok_get (accounts : List AccountModel) :
    ∀ (entries : List TransactionEntryInput) (m out : List (String × ℚ))
      (k : String) (a : AccountModel),
      calcLoop accounts entries m = .ok out →
      getAccount accounts k = some a →
      ((mapGet m k).isSome ∨ entries.any (fun e => e.account_id == k)) →
      mapGet out k =
        some (runBal k a.direction ((mapGet m k).getD a.balance) entries) := by
  intro entries
  induction entries with
  | nil =>
    intro m out k a h ha hd
    rw [calcLoop] at h
    cases h
    rcases hd with hs | hany
    · rcases Option.isSome_iff_exists.mp hs with ⟨b, hb⟩
      rw [hb]
      rfl
    · simp at hany
  | cons e rest ih =>
    intro m out k a h ha hd
    rw [calcLoop] at h
    cases hga : getAccount accounts e.account_id with
    | none =>
      rw [hga] at h
      exact absurd h (by simp)
    | some acct =>
      rw [hga] at h
      by_cases hk : e.account_id = k
      · have hacct : acct = a := by
          rw [hk] at hga
          rw [hga] at ha
          exact Option.some.inj ha
        subst hacct
        have hget' : mapGet (mapSet m e.account_id
            (if e.direction = acct.direction then
              (mapGet m e.account_id).getD acct.balance + e.amount
            else (mapGet m e.account_id).getD acct.balance - e.amount)) k =
            some (if e.direction = acct.direction then
              (mapGet m e.account_id).getD acct.balance + e.amount
            else (mapGet m e.account_id).getD acct.balance - e.amount) := by
          rw [← hk]
          exact mapGet_mapSet_self _ _ _
        have := ih _ _ k acct h ha (Or.inl (by rw [hget']; rfl))
        rw [hget'] at this
        simp only [Option.getD_some] at this
        rw [this]
        have hrb : runBal k acct.direction ((mapGet m k).getD acct.balance)
            (e :: rest) =
            runBal k acct.direction
              (if e.direction = acct.direction then
                (mapGet m k).getD acct.balance + e.amount
              else (mapGet m k).getD acct.balance - e.amount) rest := by
          simp [runBal, hk]
        rw [hrb, hk]
  -- the remaining congruence is the starting balance written two ways
      · have hne : k ≠ e.account_id := fun hc => hk hc.symm
        have hget' : mapGet (mapSet m e.account_id
            (if e.direction = acct.direction then
              (mapGet m e.account_id).getD acct.balance + e.amount
            else (mapGet m e.account_id).getD acct.balance - e.amount)) k =
            mapGet m k := mapGet_mapSet_ne _ _ _ _ hne
        have hd' : (mapGet (mapSet m e.account_id
            (if e.direction = acct.direction then
              (mapGet m e.account_id).getD acct.balance + e.amount
            else (mapGet m e.account_id).getD acct.balance - e.amount)) k).isSome
            ∨ rest.any (fun e => e.account_id == k) := by
          rcases hd with hs | hany
          · exact Or.inl (by rw [hget']; exact hs)
          · simp only [List.any_cons, Bool.or_eq_true] at hany
            rcases hany with hthis | hrest
            · exact absurd (by simpa using hthis) hk
            · exact Or.inr hrest
        have := ih _ _ k a h ha hd'
        rw [hget'] at this
        rw [this]
        have hrb : runBal k a.direction ((mapGet m k).getD a.balance)
            (e :: rest) =
            runBal k a.direction ((mapGet m k).getD a.balance) rest := by
          simp [runBal, hk]
        rw [hrb]

theorem encounterOrder_congr :
    ∀ (l : List TransactionEntryInput) (s₁ s₂ : List String),
      (∀ x, x ∈ s₁ ↔ x ∈ s₂) → encounterOrder s₁ l = encounterOrder s₂ l := by
  intro l
  induction l with
  | nil => intro s₁ s₂ _; rfl
  | cons e rest ih =>
    intro s₁ s₂ hmem
    by_cases h : e.account_id ∈ s₁
    · have h₂ : e.account_id ∈ s₂ := (hmem _).mp h
      simp only [encounterOrder, if_pos h, if_pos h₂]
      exact ih s₁ s₂ hmem
    · have h₂ : e.account_id ∉ s₂ := fun hc => h ((hmem _).mpr hc)
      simp only [encounterOrder, if_neg h, if_neg h₂]
      rw [ih (e.account_id :: s₁) (e.account_id :: s₂)
        (by intro x; simp [hmem x])]

theorem mem_encounterOrder :
    ∀ (l : List TransactionEntryInput) (seen : List String) (k : String),
      k ∈ encounterOrder seen l ↔
        (k ∉ seen ∧ ∃ e ∈ l, e.account_id = k) := by
  intro l
  induction l with
  | nil => intro seen k; simp [encounterOrder]
  | cons e rest ih =>
    intro seen k
    by_cases h : e.account_id ∈ seen
    · rw [encounterOrder, if_pos h, ih]
      constructor
      · rintro ⟨hk, e', he', hacc⟩
        exact ⟨hk, e', List.mem_cons_of_mem _ he', hacc⟩
      · rintro ⟨hk, e', he', hacc⟩
        rcases List.mem_cons.mp he' with heq | hmem
        · subst heq
          exact absurd (hacc ▸ h) hk
        · exact ⟨hk, e', hmem, hacc⟩
    · rw [encounterOrder, if_neg h]
      constructor
      · intro hk
        rcases List.mem_cons.mp hk with heq | hmem
        · subst heq
          exact ⟨h, e, List.mem_cons_self _ _, rfl⟩
        · rcases (ih _ _).mp hmem with ⟨hns, e', he', hacc⟩
          exact ⟨fun hc => hns (List.mem_cons_of_mem _ hc), e',
            List.mem_cons_of_mem _ he', hacc⟩
      · rintro ⟨hns, e', he', hacc⟩
        rcases List.mem_cons.mp he' with heq | hmem
        · subst heq
          rw [hacc]
          exact List.mem_cons_self _ _
        · by_cases hke : k = e.account_id
          · rw [hke]
            exact List.mem_cons_self _ _
          · refine List.mem_cons_of_mem _ ((ih _ _).mpr
              ⟨?_, e', hmem, hacc⟩)
            intro hc
            rcases List.mem_cons.mp hc with hc1 | hc2
            · exact hke hc1
            · exact hns hc2

theorem encounterOrder_nodup :
    ∀ (l : List TransactionEntryInput) (seen : List String),
      (encounterOrder seen l).Nodup := by
  intro l
  induction l with
  | nil => intro seen; simp [encounterOrder]
  | cons e rest ih =>
    intro seen
    by_cases h : e.account_id ∈ seen
    · rw [encounterOrder, if_pos h]
      exact ih seen
    · rw [encounterOrder, if_neg h]
      refine List.nodup_cons.mpr ⟨?_, ih _⟩
      intro hc
      exact ((mem_encounterOrder _ _ _).mp hc).1 (List.mem_cons_self _ _)

theorem calcLoop_ok_keys (accounts : List AccountModel) :
    ∀ (entries : List TransactionEntryInput) (m out : List (String × ℚ)),
      calcLoop accounts entries m = .ok out →
      out.map Prod.fst = m.map Prod.fst ++
        encounterOrder (m.map Prod.fst) entries := by
  intro entries
  induction entries with
  | nil =>
    intro m out h
    rw [calcLoop] at h
    cases h
    simp [encounterOrder]
  | cons e rest ih =>
    intro m out h
    rw [calcLoop] at h
    cases hga : getAccount accounts e.account_id with
    | none =>
      rw [hga] at h
      exact absurd h (by simp)
    | some acct =>
      rw [hga] at h
      by_cases hmem : e.account_id ∈ m.map Prod.fst
      · have hs : (mapGet m e.account_id).isSome :=
          (mapGet_isSome_iff_mem _ _).mpr hmem
        have hkeys := keys_mapSet_mem m e.account_id
          (if e.direction = acct.direction then
            (mapGet m e.account_id).getD acct.balance + e.amount
          else (mapGet m e.account_id).getD acct.balance - e.amount) hs
        have := ih _ _ h
        rw [hkeys] at this
        rw [this, encounterOrder, if_pos hmem]
      · have hnone : mapGet m e.account_id = none :=
          (mapGet_eq_none_iff _ _).mpr hmem
        have hkeys := keys_mapSet_new m e.account_id
          (if e.direction = acct.direction then
            (mapGet m e.account_id).getD acct.balance + e.amount
          else (mapGet m e.account_id).getD acct.balance - e.amount) hnone
        have := ih _ _ h
        rw [hkeys] at this
        rw [this, encounterOrder, if_neg hmem,
          encounterOrder_congr rest (m.map Prod.fst ++ [e.account_id])
            (e.account_id :: m.map Prod.fst) (by intro x; simp; tauto),
          List.append_assoc]
        rfl

theorem calcLoop_err_first_missing (accounts : List AccountModel) :
    ∀ (entries : List TransactionEntryInput) (m : List (String × ℚ))
      (e₀ : TransactionEntryInput),
      entries.find? (fun e => (getAccount accounts e.account_id).isNone)
        = some e₀ →
      calcLoop accounts entries m = .error (.accountNotFound e₀.account_id) := by
  intro entries
  induction entries with
  | nil =>
    intro m e₀ h
    simp [List.find?] at h
  | cons e rest ih =>
    intro m e₀ h
    rw [List.find?] at h
    cases hga : getAccount accounts e.account_id with
    | none =>
      rw [hga] at h
      simp at h
      rw [calcLoop, hga, h]
    | some a =>
      rw [hga] at h
      simp only [Option.isNone_some] at h
      rw [calcLoop, hga]
      exact ih _ _ h

theorem runBal_eq (k : String) (dir : Direction) :
    ∀ (l : List TransactionEntryInput) (b : ℚ),
      runBal k dir b l = b + netEffect k dir l := by
  intro l
  induction l with
  | nil => intro b; simp [runBal, netEffect]
  | cons e rest ih =>
    intro b
    by_cases hacc : e.account_id = k
    · have hL : runBal k dir b (e :: rest) =
          runBal k dir (if e.direction = dir then b + e.amount else b - e.amount)
            rest := by
        simp [runBal, hacc]
      have hR : netEffect k dir (e :: rest) =
          (if e.direction = dir then e.amount else -e.amount) +
            netEffect k dir rest := by
        simp [netEffect, hacc]
      rw [hL, hR, ih]
      by_cases hdir : e.direction = dir <;> simp [hdir] <;> ring
    · have hL : runBal k dir b (e :: rest) = runBal k dir b rest := by
        simp [runBal, hacc]
      have hR : netEffect k dir (e :: rest) = netEffect k dir rest := by
        simp [netEffect, hacc]
      rw [hL, hR, ih]

end CalcLemmas

section ServiceLemmas

theorem createTransaction_eq_of_validate_err (gen : ℕ → String)
    (st : LedgerState) (input : CreateTransactionInput) (err : LedgerError)
    (hv : validateEntriesBalance input.entries = .error err) :
    createTransaction gen st input = (st, .error err) := by
  unfold createTransaction
  rw [hv]

theorem createTransaction_eq_of_calc_err (gen : ℕ → String)
    (st : LedgerState) (input : CreateTransactionInput) (err : LedgerError)
    (hv : validateEntriesBalance input.entries = .ok ())
    (hc : calculateBalanceUpdates st.accounts input.entries = .error err) :
    createTransaction gen st input = (st, .error err) := by
  unfold createTransaction
  rw [hv, hc]

theorem createTransaction_eq_of_calc_ok (gen : ℕ → String)
    (st : LedgerState) (input : CreateTransactionInput)
    (out : List (String × ℚ))
    (hv : validateEntriesBalance input.entries = .ok ())
    (hc : calculateBalanceUpdates st.accounts input.entries = .ok out) :
    createTransaction gen st input =
      (createWithBalanceUpdates st (TransactionModel.fromInput gen input) out,
        .ok (formatResponse (TransactionModel.fromInput gen input))) := by
  unfold createTransaction
  rw [hv, hc]
  rfl

theorem createTransaction_ok_elim (gen : ℕ → String) (st : LedgerState)
    (input : CreateTransactionInput) (st' : LedgerState)
    (resp : TransactionResponse)
    (h : createTransaction gen st input = (st', .ok resp)) :
    validateEntriesBalance input.entries = .ok () ∧
      ∃ out, calculateBalanceUpdates st.accounts input.entries = .ok out ∧
        st' = createWithBalanceUpdates st (TransactionModel.fromInput gen input)
          out ∧
        resp = formatResponse (TransactionModel.fromInput gen input) := by
  cases hv : validateEntriesBalance input.entries with
  | error err =>
    rw [createTransaction_eq_of_validate_err gen st input err hv] at h
    exact absurd (congrArg Prod.snd h) (by simp)
  | ok u =>
    cases u
    cases hc : calculateBalanceUpdates st.accounts input.entries with
    | error err =>
      rw [createTransaction_eq_of_calc_err gen st input err hv hc] at h
      exact absurd (congrArg Prod.snd h) (by simp)
    | ok out =>
      rw [createTransaction_eq_of_calc_ok gen st input out hv hc] at h
      have h1 := congrArg Prod.fst h
      have h2 := congrArg Prod.snd h
      simp only at h1 h2
      constructor
      · rfl
      · refine ⟨out, rfl, h1.symm, ?_⟩
        cases h2
        rfl

theorem createTransaction_err_state (gen : ℕ → String) (st : LedgerState)
    (input : CreateTransactionInput) (err : LedgerError)
    (h : (createTransaction gen st input).2 = .error err) :
    (createTransaction gen st input).1 = st := by
  cases hv : validateEntriesBalance input.entries with
  | error e => rw [createTransaction_eq_of_validate_err gen st input e hv]
  | ok u =>
    cases u
    cases hc : calculateBalanceUpdates st.accounts input.entries with
    | error e => rw [createTransaction_eq_of_calc_err gen st input e hv hc]
    | ok out =>
      rw [createTransaction_eq_of_calc_ok gen st input out hv hc] at h
      exact absurd h (by simp)

theorem entryModelsFrom_length (gen : ℕ → String) (tid : String) :
    ∀ (l : List TransactionEntryInput) (i : ℕ),
      (entryModelsFrom gen tid i l).length = l.length := by
  intro l
  induction l with
  | nil => intro i; rfl
  | cons e rest ih => intro i; simp [entryModelsFrom, ih]

theorem entryModelsFrom_get (gen : ℕ → String) (tid : String) :
    ∀ (l : List TransactionEntryInput) (i : ℕ) (n : ℕ) (hn : n < l.length),
      (entryModelsFrom gen tid i l).get
          ⟨n, by rw [entryModelsFrom_length]; exact hn⟩ =
        TransactionEntryModel.fromInput (gen (i + n + 1)) (l.get ⟨n, hn⟩) tid := by
  intro l
  induction l with
  | nil => intro i n hn; simp at hn
  | cons e rest ih =>
    intro i n hn
    cases n with
    | zero => rfl
    | succ n' =>
      have hn' : n' < rest.length := Nat.lt_of_succ_lt_succ hn
      have harith : i + 1 + n' + 1 = i + (n' + 1) + 1 := by omega
      have hstep : (entryModelsFrom gen tid i (e :: rest)).get
          ⟨n' + 1, by rw [entryModelsFrom_length]; exact hn⟩ =
          (entryModelsFrom gen tid (i + 1) rest).get
          ⟨n', by rw [entryModelsFrom_length]; exact hn'⟩ := rfl
      have hg : (e :: rest).get ⟨n' + 1, hn⟩ = rest.get ⟨n', hn'⟩ := rfl
      rw [hstep, ih (i + 1) n' hn', hg, harith]

theorem modelTotals_entryModelsFrom (gen : ℕ → String) (tid : String) :
    ∀ (l : List TransactionEntryInput) (i : ℕ) (t : ℚ × ℚ),
      (entryModelsFrom gen tid i l).foldl
          (fun t e =>
            match e.direction with
            | .debit => (t.1 + e.amount, t.2)
            | .credit => (t.1, t.2 + e.amount)) t =
        l.foldl
          (fun t e =>
            match e.direction with
            | .debit => (t.1 + e.amount, t.2)
            | .credit => (t.1, t.2 + e.amount)) t := by
  intro l
  induction l with
  | nil => intro i t; rfl
  | cons e rest ih =>
    intro i t
    simp only [entryModelsFrom, List.foldl]
    rw [ih (i + 1)]
    rfl

theorem modelTotals_fromInput (gen : ℕ → String)
    (input : CreateTransactionInput) :
    modelTotals (TransactionModel.fromInput gen input).entries =
      entryTotals input.entries := by
  simp only [modelTotals, entryTotals, TransactionModel.fromInput]
  exact modelTotals_entryModelsFrom gen _ input.entries 0 (0, 0)

end ServiceLemmas

section SchemaLemmas

theorem amountIssues_invalid_of_mem :
    ∀ (l : List TransactionEntryInput) (i : ℕ) (e : TransactionEntryInput),
      e ∈ l → e.amount ≤ 0 →
      ∃ j, SchemaIssue.invalidEntry j ∈ amountIssues i l := by
  intro l
  induction l with
  | nil => intro i e he _; simp at he
  | cons e' rest ih =>
    intro i e he hle
    rcases List.mem_cons.mp he with heq | hmem
    · subst heq
      refine ⟨i, ?_⟩
      simp [amountIssues, hle]
    · rcases ih (i + 1) e hmem hle with ⟨j, hj⟩
      refine ⟨j, ?_⟩
      simp [amountIssues]
      right
      exact hj

theorem schemaIssues_tooFew (input : CreateTransactionInput)
    (h : input.entries.length < 2) :
    SchemaIssue.tooFewEntries ∈ schemaIssues input := by
  simp [schemaIssues, h]

theorem schemaIssues_invalid (input : CreateTransactionInput)
    (e : TransactionEntryInput) (he : e ∈ input.entries)
    (hle : e.amount ≤ 0) :
    ∃ j, SchemaIssue.invalidEntry j ∈ schemaIssues input := by
  rcases amountIssues_invalid_of_mem input.entries 0 e he hle with ⟨j, hj⟩
  refine ⟨j, ?_⟩
  unfold schemaIssues
  exact List.mem_append_right _ hj

theorem schemaIssues_ne_nil (input : CreateTransactionInput)
    (h : input.entries.length < 2 ∨ ∃ e ∈ input.entries, e.amount ≤ 0) :
    schemaIssues input ≠ [] := by
  intro hnil
  rcases h with hlen | ⟨e, he, hle⟩
  · exact absurd (hnil ▸ schemaIssues_tooFew input hlen) (List.not_mem_nil _)
  · rcases schemaIssues_invalid input e he hle with ⟨j, hj⟩
    exact absurd (hnil ▸ hj) (List.not_mem_nil _)

theorem handlePost_badRequest (gen : ℕ → String) (st : LedgerState)
    (input : CreateTransactionInput) (h : schemaIssues input ≠ []) :
    handlePostTransaction gen st input = (st, .badRequest (schemaIssues input)) := by
  rw [handlePostTransaction, if_pos h]

end SchemaLemmas

section DirectionLemmas

theorem dir_cd : (Direction.credit = Direction.debit) = False :=
  eq_false (by decide)

theorem dir_dc : (Direction.debit = Direction.credit) = False :=
  eq_false (by decide)

end DirectionLemmas

section ValidateLemmas

theorem absQ_eq_abs (x : ℚ) : absQ x = |x| := by
  rw [absQ]
  by_cases h : x < 0
  · rw [if_pos h, abs_of_neg h]
  · rw [if_neg h, abs_of_nonneg (le_of_not_lt h)]

theorem validate_eq (entries : List TransactionEntryInput) :
    validateEntriesBalance entries =
      if tolerance <
          |(entryTotals entries).1 - (entryTotals entries).2| then
        .error (.unbalanced (entryTotals entries).1 (entryTotals entries).2)
      else .ok () := by
  rw [validateEntriesBalance]
  rw [absQ_eq_abs]

theorem calcLoop_err_shape (accounts : List AccountModel) :
    ∀ (entries : List TransactionEntryInput) (m : List (String × ℚ))
      (err : LedgerError),
      calcLoop accounts entries m = .error err →
      ∃ aid, err = .accountNotFound aid := by
  intro entries
  induction entries with
  | nil =>
    intro m err h
    rw [calcLoop] at h
    exact absurd h (by simp)
  | cons e rest ih =>
    intro m err h
    rw [calcLoop] at h
    cases hga : getAccount accounts e.account_id with
    | none =>
      rw [hga] at h
      exact ⟨e.account_id, (Except.error.inj h).symm⟩
    | some a =>
      rw [hga] at h
      exact ih _ _ h

end ValidateLemmas

/-- C1: for every posting accepted by `createTransaction` and every
account touched by its entries, the account's new stored balance minus
its old stored balance equals the signed sum of that account's entries:
an entry whose direction equals the account's own direction contributes
`+amount`, an entry whose direction differs contributes `-amount`. -/
theorem C1_balance_delta (gen : ℕ → String) (st : LedgerState)
    (input : CreateTransactionInput) (st' : LedgerState)
    (resp : TransactionResponse) (k : String)
    (hok : createTransaction gen st input = (st', .ok resp))
    (htouch : ∃ e ∈ input.entries, e.account_id = k) :
    ∃ a a', getAccount st.accounts k = some a ∧
      getAccount st'.accounts k = some a' ∧
      a'.balance - a.balance = netEffect k a.direction input.entries := by
  obtain ⟨hv, out, hc, hst', hresp⟩ :=
    createTransaction_ok_elim gen st input st' resp hok
  rw [calculateBalanceUpdates] at hc
  obtain ⟨e₀, he₀, hacc⟩ := htouch
  have hsome := calcLoop_ok_accounts st.accounts input.entries [] out hc e₀ he₀
  rw [hacc] at hsome
  obtain ⟨a, ha⟩ := Option.isSome_iff_exists.mp hsome
  have hany : input.entries.any (fun e => e.account_id == k) = true :=
    List.any_eq_true.mpr ⟨e₀, he₀, by simp [hacc]⟩
  have hmget := calcLoop_ok_get st.accounts input.entries [] out k a hc ha
    (Or.inr hany)
  have hkeys := calcLoop_ok_keys st.accounts input.entries [] out hc
  simp only [List.map_nil, List.nil_append] at hkeys
  have hnodup : (out.map Prod.fst).Nodup := by
    rw [hkeys]
    exact encounterOrder_nodup input.entries []
  have hlast : lastVal out k = mapGet out k :=
    lastVal_eq_mapGet_of_nodup out k hnodup
  have hacc' : getAccount st'.accounts k =
      (getAccount st.accounts k).map
        (fun a => { a with balance := (lastVal out k).getD a.balance }) := by
    rw [hst']
    exact getAccount_updateBalances out st.accounts k
  rw [ha, hlast, hmget] at hacc'
  refine ⟨a, _, ha, hacc', ?_⟩
  simp only [Option.getD_some, mapGet_nil] at *
  rw [runBal_eq]
  simp

set_option maxHeartbeats 1600000 in
/-- C1 witness: scenario 1 of the spec — account `a1` (DEBIT, balance
5000) debited 1000 and account `a2` (CREDIT, balance 0) credited 1000;
`a1`'s stored balance moves by its signed entry sum. -/
theorem C1_witness :
    ∃ a a',
      getAccount [⟨"a1", "A", 5000, .debit⟩, ⟨"a2", "B", 0, .credit⟩] "a1"
        = some a ∧
      getAccount
        (createTransaction (fun _ => "")
          ⟨[⟨"a1", "A", 5000, .debit⟩, ⟨"a2", "B", 0, .credit⟩], []⟩
          ⟨some "t1", some "t",
            [⟨some "e1", "a1", 1000, .debit⟩,
              ⟨some "e2", "a2", 1000, .credit⟩]⟩).1.accounts "a1"
        = some a' ∧
      a'.balance - a.balance =
        netEffect "a1" a.direction
          [⟨some "e1", "a1", 1000, .debit⟩,
            ⟨some "e2", "a2", 1000, .credit⟩] := by
  have hok : createTransaction (fun _ => "")
      ⟨[⟨"a1", "A", 5000, .debit⟩, ⟨"a2", "B", 0, .credit⟩], []⟩
      ⟨some "t1", some "t",
        [⟨some "e1", "a1", 1000, .debit⟩, ⟨some "e2", "a2", 1000, .credit⟩]⟩
      = (⟨[⟨"a1", "A", 6000, .debit⟩, ⟨"a2", "B", 1000, .credit⟩],
          [⟨"t1", "t", [⟨"e1", "t1", "a1", 1000, .debit⟩,
            ⟨"e2", "t1", "a2", 1000, .credit⟩]⟩]⟩,
        .ok ⟨"t1", "t", [⟨"e1", "a1", 1000, .debit⟩,
          ⟨"e2", "a2", 1000, .credit⟩]⟩) := by
    simp only [createTransaction, validateEntriesBalance, entryTotals, absQ,
      tolerance, calculateBalanceUpdates, calcLoop, getAccount, mapGet, mapSet,
      List.find?, TransactionModel.fromInput, entryModelsFrom,
      TransactionEntryModel.fromInput, createWithBalanceUpdates, updateBalances,
      List.foldl, List.map, Option.getD, Option.map, String.reduceBEq,
      String.reduceEq, beq_self_eq_true]
    norm_num
    try decide
  have := C1_balance_delta (fun _ => "")
    ⟨[⟨"a1", "A", 5000, .debit⟩, ⟨"a2", "B", 0, .credit⟩], []⟩
    ⟨some "t1", some "t",
      [⟨some "e1", "a1", 1000, .debit⟩, ⟨some "e2", "a2", 1000, .credit⟩]⟩
    ⟨[⟨"a1", "A", 6000, .debit⟩, ⟨"a2", "B", 1000, .credit⟩],
      [⟨"t1", "t", [⟨"e1", "t1", "a1", 1000, .debit⟩,
        ⟨"e2", "t1", "a2", 1000, .credit⟩]⟩]⟩
    ⟨"t1", "t", [⟨"e1", "a1", 1000, .debit⟩, ⟨"e2", "a2", 1000, .credit⟩]⟩
    "a1" hok
    ⟨⟨some "e1", "a1", 1000, .debit⟩, by simp, rfl⟩
  rw [hok]
  exact this

/-- C2: `createTransaction` fails with an `unbalanced` error carrying the
debit total and the credit total, leaving the state unchanged (no balance
change, no transaction or entry record), exactly when
`|debit_total - credit_total| > 0.001`; and any `unbalanced` failure
carries exactly those two totals. -/
theorem C2_unbalanced_iff (gen : ℕ → String) (st : LedgerState)
    (input : CreateTransactionInput) :
    (createTransaction gen st input =
        (st, .error (.unbalanced (entryTotals input.entries).1
          (entryTotals input.entries).2)) ↔
      tolerance <
        |(entryTotals input.entries).1 - (entryTotals input.entries).2|) ∧
    ∀ d c, (createTransaction gen st input).2 = .error (.unbalanced d c) →
      d = (entryTotals input.entries).1 ∧
        c = (entryTotals input.entries).2 := by
  by_cases hcond : tolerance <
      |(entryTotals input.entries).1 - (entryTotals input.entries).2|
  · have hv : validateEntriesBalance input.entries =
        .error (.unbalanced (entryTotals input.entries).1
          (entryTotals input.entries).2) := by
      rw [validate_eq, if_pos hcond]
    have heq := createTransaction_eq_of_validate_err gen st input _ hv
    refine ⟨⟨fun _ => hcond, fun _ => heq⟩, ?_⟩
    intro d c h
    rw [heq] at h
    have := Except.error.inj h
    exact ⟨(LedgerError.unbalanced.inj this.symm).1,
      (LedgerError.unbalanced.inj this.symm).2⟩
  · have hv : validateEntriesBalance input.entries = .ok () := by
      rw [validate_eq, if_neg hcond]
    have hshape : ∀ d c,
        (createTransaction gen st input).2 ≠ .error (.unbalanced d c) := by
      intro d c
      cases hc : calculateBalanceUpdates st.accounts input.entries with
      | error err =>
        rw [createTransaction_eq_of_calc_err gen st input err hv hc]
        obtain ⟨aid, haid⟩ :=
          calcLoop_err_shape st.accounts input.entries [] err hc
        simp [haid]
      | ok out =>
        rw [createTransaction_eq_of_calc_ok gen st input out hv hc]
        simp
    constructor
    · constructor
      · intro h
        exact absurd (congrArg Prod.snd h) (hshape _ _)
      · intro h
        exact absurd h hcond
    · intro d c h
      exact absurd h (hshape d c)

/-- C3: a posting referencing a missing account fails with the state
unchanged (nothing persisted); when the balance check passes, the error
is `accountNotFound` carrying the first missing account id in entry
order, thrown before the atomic commit. -/
theorem C3_missing_account (gen : ℕ → String) (st : LedgerState)
    (input : CreateTransactionInput) :
    ((∃ e ∈ input.entries, getAccount st.accounts e.account_id = none) →
      (createTransaction gen st input).1 = st ∧
        ∃ err, (createTransaction gen st input).2 = .error err) ∧
    ∀ e₀, validateEntriesBalance input.entries = .ok () →
      input.entries.find?
          (fun e => (getAccount st.accounts e.account_id).isNone) = some e₀ →
      createTransaction gen st input =
        (st, .error (.accountNotFound e₀.account_id)) := by
  have hmain : ∀ e₀, validateEntriesBalance input.entries = .ok () →
      input.entries.find?
          (fun e => (getAccount st.accounts e.account_id).isNone) = some e₀ →
      createTransaction gen st input =
        (st, .error (.accountNotFound e₀.account_id)) := by
    intro e₀ hv hfind
    have hc : calculateBalanceUpdates st.accounts input.entries =
        .error (.accountNotFound e₀.account_id) :=
      calcLoop_err_first_missing st.accounts input.entries [] e₀ hfind
    exact createTransaction_eq_of_calc_err gen st input _ hv hc
  refine ⟨?_, hmain⟩
  rintro ⟨e, he, hnone⟩
  cases hv : validateEntriesBalance input.entries with
  | error err =>
    rw [createTransaction_eq_of_validate_err gen st input err hv]
    exact ⟨rfl, err, rfl⟩
  | ok u =>
    cases u
    have hfind : (input.entries.find?
        (fun e => (getAccount st.accounts e.account_id).isNone)).isSome := by
      rw [List.find?_isSome]
      exact ⟨e, he, by rw [hnone]; rfl⟩
    obtain ⟨e₀, he₀⟩ := Option.isSome_iff_exists.mp hfind
    rw [hmain e₀ hv he₀]
    exact ⟨rfl, .accountNotFound e₀.account_id, rfl⟩

/-- C5: the balance validation runs before any account lookup — an
unbalanced posting fails with `unbalanced` identically on every store
state (no account is read), and an `accountNotFound` failure can only
occur once the balance check has passed. -/
theorem C5_balance_check_first (gen : ℕ → String)
    (input : CreateTransactionInput) :
    ((tolerance <
        |(entryTotals input.entries).1 - (entryTotals input.entries).2|) →
      ∀ st : LedgerState, createTransaction gen st input =
        (st, .error (.unbalanced (entryTotals input.entries).1
          (entryTotals input.entries).2))) ∧
    ∀ (st : LedgerState) (aid : String),
      (createTransaction gen st input).2 = .error (.accountNotFound aid) →
      |(entryTotals input.entries).1 - (entryTotals input.entries).2| ≤
        tolerance := by
  constructor
  · intro hcond st
    have hv : validateEntriesBalance input.entries =
        .error (.unbalanced (entryTotals input.entries).1
          (entryTotals input.entries).2) := by
      rw [validate_eq, if_pos hcond]
    exact createTransaction_eq_of_validate_err gen st input _ hv
  · intro st aid h
    by_contra hcond
    push_neg at hcond
    have hv : validateEntriesBalance input.entries =
        .error (.unbalanced (entryTotals input.entries).1
          (entryTotals input.entries).2) := by
      rw [validate_eq, if_pos hcond]
    rw [createTransaction_eq_of_validate_err gen st input _ hv] at h
    simp at h

/-- C4: the balance-update set computed for a posting holds exactly one
`(account_id, new_balance)` pair per distinct account referenced by the
entries — not one per entry — and that single pair carries the fully
accumulated net balance (the stored balance plus the signed sum of all
of that account's entries). -/
theorem C4_net_update_per_account (accounts : List AccountModel)
    (entries : List TransactionEntryInput) (out : List (String × ℚ))
    (hok : calculateBalanceUpdates accounts entries = .ok out) :
    (out.map Prod.fst).Nodup ∧
    (∀ k, k ∈ out.map Prod.fst ↔ ∃ e ∈ entries, e.account_id = k) ∧
    ∀ k a, getAccount accounts k = some a →
      (∃ e ∈ entries, e.account_id = k) →
      mapGet out k = some (a.balance + netEffect k a.direction entries) := by
  rw [calculateBalanceUpdates] at hok
  have hkeys := calcLoop_ok_keys accounts entries [] out hok
  simp only [List.map_nil, List.nil_append] at hkeys
  refine ⟨?_, ?_, ?_⟩
  · rw [hkeys]
    exact encounterOrder_nodup entries []
  · intro k
    rw [hkeys, mem_encounterOrder]
    simp
  · intro k a ha ⟨e₀, he₀, hacc⟩
    have hany : entries.any (fun e => e.account_id == k) = true :=
      List.any_eq_true.mpr ⟨e₀, he₀, by simp [hacc]⟩
    have hmget := calcLoop_ok_get accounts entries [] out k a hok ha
      (Or.inr hany)
    rw [hmget, runBal_eq]
    rfl

set_option maxHeartbeats 1600000 in
/-- C4 witness: scenario 4 of the spec — account `a1` (DEBIT, balance
5000) receives two credit entries of 500 and 300 in one transaction with
a balancing debit entry on `a2`; the computed update set carries the one
net pair `("a1", 4200)`. -/
theorem C4_witness :
    calculateBalanceUpdates
        [⟨"a1", "A", 5000, .debit⟩, ⟨"a2", "B", 0, .debit⟩]
        [⟨none, "a1", 500, .credit⟩, ⟨none, "a1", 300, .credit⟩,
          ⟨none, "a2", 800, .debit⟩]
      = .ok [("a1", 4200), ("a2", 800)] ∧
    (([("a1", (4200 : ℚ)), ("a2", 800)].map Prod.fst).Nodup ∧
      (∀ k, k ∈ [("a1", (4200 : ℚ)), ("a2", 800)].map Prod.fst ↔
        ∃ e ∈ [(⟨none, "a1", 500, .credit⟩ : TransactionEntryInput),
          ⟨none, "a1", 300, .credit⟩, ⟨none, "a2", 800, .debit⟩],
          e.account_id = k) ∧
      ∀ k a, getAccount
          [⟨"a1", "A", 5000, .debit⟩, ⟨"a2", "B", 0, .debit⟩] k = some a →
        (∃ e ∈ [(⟨none, "a1", 500, .credit⟩ : TransactionEntryInput),
          ⟨none, "a1", 300, .credit⟩, ⟨none, "a2", 800, .debit⟩],
          e.account_id = k) →
        mapGet [("a1", 4200), ("a2", 800)] k =
          some (a.balance + netEffect k a.direction
            [⟨none, "a1", 500, .credit⟩, ⟨none, "a1", 300, .credit⟩,
              ⟨none, "a2", 800, .debit⟩])) := by
  have hok : calculateBalanceUpdates
      [⟨"a1", "A", 5000, .debit⟩, ⟨"a2", "B", 0, .debit⟩]
      [⟨none, "a1", 500, .credit⟩, ⟨none, "a1", 300, .credit⟩,
        ⟨none, "a2", 800, .debit⟩]
      = .ok [("a1", 4200), ("a2", 800)] := by
    simp only [calculateBalanceUpdates, calcLoop, getAccount, mapGet, mapSet,
      List.find?, List.foldl, List.map, Option.getD, Option.map,
      String.reduceBEq, String.reduceEq, beq_self_eq_true, dir_cd, dir_dc]
    norm_num
  exact ⟨hok, C4_net_update_per_account _ _ _ hok⟩

/-- C9: the balance-update list is ordered by first encounter — distinct
accounts appear in the order of their first entry in the input — and the
calculation is deterministic: any two successful runs on the same
entries and accounts produce the same list. -/
theorem C9_deterministic_order (accounts : List AccountModel)
    (entries : List TransactionEntryInput) (out : List (String × ℚ))
    (hok : calculateBalanceUpdates accounts entries = .ok out) :
    out.map Prod.fst = encounterOrder [] entries ∧
    ∀ out', calculateBalanceUpdates accounts entries = .ok out' →
      out' = out := by
  constructor
  · rw [calculateBalanceUpdates] at hok
    have := calcLoop_ok_keys accounts entries [] out hok
    simpa using this
  · intro out' hok'
    rw [hok] at hok'
    exact (Except.ok.inj hok').symm

set_option maxHeartbeats 1600000 in
/-- C9 witness: entries touching `a2`, then `a1`, then `a2` again yield
updates ordered `a2` before `a1` (first-encounter order), and a repeated
run returns the same list. -/
theorem C9_witness :
    ([("a2", (1200 : ℚ)), ("a1", 4000)].map Prod.fst =
      encounterOrder []
        [⟨none, "a2", 500, .credit⟩, ⟨none, "a1", 1000, .credit⟩,
          ⟨none, "a2", 700, .credit⟩]) ∧
    ∀ out', calculateBalanceUpdates
        [⟨"a1", "A", 5000, .debit⟩, ⟨"a2", "B", 0, .credit⟩]
        [⟨none, "a2", 500, .credit⟩, ⟨none, "a1", 1000, .credit⟩,
          ⟨none, "a2", 700, .credit⟩] = .ok out' →
      out' = [("a2", 1200), ("a1", 4000)] := by
  have hok : calculateBalanceUpdates
      [⟨"a1", "A", 5000, .debit⟩, ⟨"a2", "B", 0, .credit⟩]
      [⟨none, "a2", 500, .credit⟩, ⟨none, "a1", 1000, .credit⟩,
        ⟨none, "a2", 700, .credit⟩]
      = .ok [("a2", 1200), ("a1", 4000)] := by
    simp only [calculateBalanceUpdates, calcLoop, getAccount, mapGet, mapSet,
      List.find?, List.foldl, List.map, Option.getD, Option.map,
      String.reduceBEq, String.reduceEq, beq_self_eq_true, dir_cd, dir_dc]
    norm_num
  exact C9_deterministic_order _ _ _ hok

set_option maxHeartbeats 1600000 in
/-- C6 counterexample: a posting of two DEBIT entries of 0.0004 (= 1/2500)
each against one existing account is accepted by `createTransaction`
(the 0.0008 imbalance is within the 0.001 tolerance), yet it contains no
CREDIT entry and its debit and credit totals are not equal — refuting the
claim that every committed transaction has entries on both sides with
equal sums. -/
theorem C6_counterexample :
    (∃ resp, (createTransaction (fun _ => "")
        ⟨[⟨"a1", "A", 0, .debit⟩], []⟩
        ⟨some "t1", some "t",
          [⟨some "e1", "a1", 1/2500, .debit⟩,
            ⟨some "e2", "a1", 1/2500, .debit⟩]⟩).2 = .ok resp) ∧
    (∀ e ∈ [(⟨some "e1", "a1", 1/2500, .debit⟩ : TransactionEntryInput),
        ⟨some "e2", "a1", 1/2500, .debit⟩],
      e.direction = Direction.debit) ∧
    (entryTotals [⟨some "e1", "a1", 1/2500, .debit⟩,
        ⟨some "e2", "a1", 1/2500, .debit⟩]).1 ≠
      (entryTotals [⟨some "e1", "a1", 1/2500, .debit⟩,
        ⟨some "e2", "a1", 1/2500, .debit⟩]).2 := by
  refine ⟨⟨⟨"t1", "t", [⟨"e1", "a1", 1/2500, .debit⟩,
      ⟨"e2", "a1", 1/2500, .debit⟩]⟩, ?_⟩, ?_, ?_⟩
  · simp only [createTransaction, validateEntriesBalance, entryTotals, absQ,
      tolerance, calculateBalanceUpdates, calcLoop, getAccount, mapGet, mapSet,
      List.find?, TransactionModel.fromInput, entryModelsFrom,
      TransactionEntryModel.fromInput, createWithBalanceUpdates, updateBalances,
      List.foldl, List.map, Option.getD, Option.map, String.reduceBEq,
      String.reduceEq, beq_self_eq_true, dir_cd, dir_dc]
    norm_num
  · intro e he
    rcases List.mem_cons.mp he with h | h
    · rw [h]
    · rcases List.mem_cons.mp h with h' | h'
      · rw [h']
      · simp at h'
  · simp only [entryTotals, List.foldl]
    norm_num

/-- C6 amended: every transaction accepted and committed by
`createTransaction` has debit and credit totals that agree within the
fixed 0.001 tolerance; the code does not require an entry of each
direction, and the two totals need not be exactly equal — a one-sided
posting whose total imbalance is at most 0.001 commits. -/
theorem C6_amended (gen : ℕ → String) (st : LedgerState)
    (input : CreateTransactionInput) (st' : LedgerState)
    (resp : TransactionResponse)
    (hok : createTransaction gen st input = (st', .ok resp)) :
    ∃ t, st'.transactions = st.transactions ++ [t] ∧
      |(modelTotals t.entries).1 - (modelTotals t.entries).2| ≤ tolerance := by
  obtain ⟨hv, out, hc, hst', hresp⟩ :=
    createTransaction_ok_elim gen st input st' resp hok
  refine ⟨TransactionModel.fromInput gen input, ?_, ?_⟩
  · rw [hst']
    rfl
  · rw [modelTotals_fromInput]
    rw [validate_eq] at hv
    by_cases hcond : tolerance <
        |(entryTotals input.entries).1 - (entryTotals input.entries).2|
    · rw [if_pos hcond] at hv
      exact absurd hv (by simp)
    · exact not_lt.mp hcond

set_option maxHeartbeats 1600000 in
/-- C6 witness: a balanced two-sided posting (debit 250 / credit 250)
commits and the stored transaction's totals agree within tolerance. -/
theorem C6_witness :
    ∃ t, (⟨[⟨"b1", "X", 250, .debit⟩, ⟨"b2", "Y", 250, .credit⟩],
        [⟨"u1", "w", [⟨"f1", "u1", "b1", 250, .debit⟩,
          ⟨"f2", "u1", "b2", 250, .credit⟩]⟩]⟩ : LedgerState).transactions =
      ([] : List TransactionModel) ++ [t] ∧
      |(modelTotals t.entries).1 - (modelTotals t.entries).2| ≤ tolerance := by
  have hok : createTransaction (fun _ => "")
      ⟨[⟨"b1", "X", 0, .debit⟩, ⟨"b2", "Y", 0, .credit⟩], []⟩
      ⟨some "u1", some "w",
        [⟨some "f1", "b1", 250, .debit⟩, ⟨some "f2", "b2", 250, .credit⟩]⟩
      = (⟨[⟨"b1", "X", 250, .debit⟩, ⟨"b2", "Y", 250, .credit⟩],
          [⟨"u1", "w", [⟨"f1", "u1", "b1", 250, .debit⟩,
            ⟨"f2", "u1", "b2", 250, .credit⟩]⟩]⟩,
        .ok ⟨"u1", "w", [⟨"f1", "b1", 250, .debit⟩,
          ⟨"f2", "b2", 250, .credit⟩]⟩) := by
    simp only [createTransaction, validateEntriesBalance, entryTotals, absQ,
      tolerance, calculateBalanceUpdates, calcLoop, getAccount, mapGet, mapSet,
      List.find?, TransactionModel.fromInput, entryModelsFrom,
      TransactionEntryModel.fromInput, createWithBalanceUpdates, updateBalances,
      List.foldl, List.map, Option.getD, Option.map, String.reduceBEq,
      String.reduceEq, beq_self_eq_true, dir_cd, dir_dc]
    norm_num
  exact C6_amended (fun _ => "")
    ⟨[⟨"b1", "X", 0, .debit⟩, ⟨"b2", "Y", 0, .credit⟩], []⟩
    ⟨some "u1", some "w",
      [⟨some "f1", "b1", 250, .debit⟩, ⟨some "f2", "b2", 250, .credit⟩]⟩
    _ _ hok

/-- C7: the balance tolerance is the fixed constant 0.001 and rejection
is strictly greater-than: entries are accepted exactly when the totals
differ by at most 0.001; in particular debit 1000.0001 against credit
1000.00009 (difference 0.00001) is accepted, and a difference of exactly
0.001 is accepted. -/
theorem C7_fixed_tolerance :
    tolerance = 1 / 1000 ∧
    (∀ entries, validateEntriesBalance entries = .ok () ↔
      |(entryTotals entries).1 - (entryTotals entries).2| ≤ tolerance) ∧
    validateEntriesBalance
      [⟨none, "a", 10000001/10000, .debit⟩,
        ⟨none, "b", 100000009/100000, .credit⟩] = .ok () ∧
    validateEntriesBalance
      [⟨none, "a", 1001/1000, .debit⟩, ⟨none, "b", 1, .credit⟩] = .ok () := by
  have hiff : ∀ entries, validateEntriesBalance entries = .ok () ↔
      |(entryTotals entries).1 - (entryTotals entries).2| ≤ tolerance := by
    intro entries
    rw [validate_eq]
    by_cases hcond : tolerance <
        |(entryTotals entries).1 - (entryTotals entries).2|
    · rw [if_pos hcond]
      constructor
      · intro h
        exact absurd h (by simp)
      · intro h
        exact absurd hcond (not_lt.mpr h)
    · rw [if_neg hcond]
      exact ⟨fun _ => not_lt.mp hcond, fun _ => rfl⟩
  refine ⟨rfl, hiff, ?_, ?_⟩
  · rw [hiff]
    simp only [entryTotals, List.foldl, tolerance]
    rw [abs_le]
    norm_num
  · rw [hiff]
    simp only [entryTotals, List.foldl, tolerance]
    rw [abs_le]
    norm_num

/-- C8: a request whose entries list has fewer than 2 elements or whose
entries include a non-positive amount is rejected at the route boundary:
the handler answers with the schema issues (a `tooFewEntries` issue,
resp. an `invalidEntry` issue), the state is unchanged, and the outcome
is the same whatever the store holds (no store access). -/
theorem C8_boundary_rejection (gen : ℕ → String) (st : LedgerState)
    (input : CreateTransactionInput) :
    ((input.entries.length < 2 ∨ ∃ e ∈ input.entries, e.amount ≤ 0) →
      handlePostTransaction gen st input =
        (st, .badRequest (schemaIssues input)) ∧
      ∀ st', (handlePostTransaction gen st' input).2 =
        .badRequest (schemaIssues input)) ∧
    (input.entries.length < 2 →
      SchemaIssue.tooFewEntries ∈ schemaIssues input) ∧
    ((∃ e ∈ input.entries, e.amount ≤ 0) →
      ∃ j, SchemaIssue.invalidEntry j ∈ schemaIssues input) := by
  refine ⟨?_, schemaIssues_tooFew input, ?_⟩
  · intro h
    have hne := schemaIssues_ne_nil input h
    exact ⟨handlePost_badRequest gen st input hne,
      fun st' => by rw [handlePost_badRequest gen st' input hne]⟩
  · rintro ⟨e, he, hle⟩
    exact schemaIssues_invalid input e he hle

section ResponseLemmas

theorem entryModelsFrom_getq (gen : ℕ → String) (tid : String) :
    ∀ (l : List TransactionEntryInput) (i n : ℕ),
      (entryModelsFrom gen tid i l).get? n =
        (l.get? n).map
          (fun e => TransactionEntryModel.fromInput (gen (i + n + 1)) e tid) := by
  intro l
  induction l with
  | nil => intro i n; cases n <;> rfl
  | cons e rest ih =>
    intro i n
    cases n with
    | zero => rfl
    | succ n' =>
      have : (entryModelsFrom gen tid i (e :: rest)).get? (n' + 1) =
          (entryModelsFrom gen tid (i + 1) rest).get? n' := rfl
      rw [this, ih (i + 1) n']
      have harith : i + 1 + n' + 1 = i + (n' + 1) + 1 := by omega
      rw [harith]
      rfl

theorem entryModelsFrom_transactionId (gen : ℕ → String) (tid : String) :
    ∀ (l : List TransactionEntryInput) (i : ℕ),
      ∀ en ∈ entryModelsFrom gen tid i l, en.transactionId = tid := by
  intro l
  induction l with
  | nil => intro i en hen; simp [entryModelsFrom] at hen
  | cons e rest ih =>
    intro i en hen
    rcases List.mem_cons.mp hen with heq | hmem
    · rw [heq]
      rfl
    · exact ih (i + 1) en hmem

end ResponseLemmas

/-- C10: a successful `createTransaction` answers with exactly one entry
per input entry in input order, each keeping the input's account id,
amount and direction; supplied transaction and entry ids are kept and
missing ones are replaced by freshly generated ids, a missing name
becomes the empty string, and every stored entry's transaction id equals
the stored transaction's id. -/
theorem C10_response_shape (gen : ℕ → String) (st : LedgerState)
    (input : CreateTransactionInput) (st' : LedgerState)
    (resp : TransactionResponse)
    (hok : createTransaction gen st input = (st', .ok resp)) :
    resp.id = input.id.getD (gen 0) ∧
    resp.name = input.name.getD "" ∧
    resp.entries.length = input.entries.length ∧
    (∀ n e, input.entries.get? n = some e →
      ∃ r, resp.entries.get? n = some r ∧
        r.account_id = e.account_id ∧ r.amount = e.amount ∧
        r.direction = e.direction ∧ r.id = e.id.getD (gen (n + 1))) ∧
    ∃ t, st'.transactions = st.transactions ++ [t] ∧ t.id = resp.id ∧
      ∀ en ∈ t.entries, en.transactionId = t.id := by
  obtain ⟨hv, out, hc, hst', hresp⟩ :=
    createTransaction_ok_elim gen st input st' resp hok
  subst hresp
  refine ⟨rfl, rfl, ?_, ?_, ?_⟩
  · simp only [formatResponse, TransactionModel.fromInput, List.length_map]
    exact entryModelsFrom_length gen _ input.entries 0
  · intro n e hget
    simp only [formatResponse, TransactionModel.fromInput, List.get?_map,
      entryModelsFrom_getq, hget, Option.map_some, Nat.zero_add]
    exact ⟨_, rfl, rfl, rfl, rfl, rfl⟩
  · refine ⟨TransactionModel.fromInput gen input, ?_, rfl, ?_⟩
    · rw [hst']
      rfl
    · intro en hen
      exact entryModelsFrom_transactionId gen _ input.entries 0 en hen

set_option maxHeartbeats 1600000 in
/-- C10 witness: a posting with a supplied id on its first entry and no
transaction id, name, or second entry id; the response keeps `e1`,
generates ids for the rest, uses the empty-string name, and the stored
entries point at the stored transaction's id. -/
theorem C10_witness :
    ("gen" : String) = (some "gen" : Option String).getD ((fun _ => "gen") 0) ∧
    ∃ r, ([⟨"e1", "c1", 10, Direction.debit⟩,
        ⟨"gen", "c2", 10, Direction.credit⟩] :
          List TransactionEntryResponse).get? 1 = some r ∧
      r.id = (none : Option String).getD ((fun _ : ℕ => "gen") 2) := by
  have hok : createTransaction (fun _ => "gen")
      ⟨[⟨"c1", "C", 0, .debit⟩, ⟨"c2", "D", 0, .credit⟩], []⟩
      ⟨none, none,
        [⟨some "e1", "c1", 10, .debit⟩, ⟨none, "c2", 10, .credit⟩]⟩
      = (⟨[⟨"c1", "C", 10, .debit⟩, ⟨"c2", "D", 10, .credit⟩],
          [⟨"gen", "", [⟨"e1", "gen", "c1", 10, .debit⟩,
            ⟨"gen", "gen", "c2", 10, .credit⟩]⟩]⟩,
        .ok ⟨"gen", "", [⟨"e1", "c1", 10, .debit⟩,
          ⟨"gen", "c2", 10, .credit⟩]⟩) := by
    simp only [createTransaction, validateEntriesBalance, entryTotals, absQ,
      tolerance, calculateBalanceUpdates, calcLoop, getAccount, mapGet, mapSet,
      List.find?, TransactionModel.fromInput, entryModelsFrom,
      TransactionEntryModel.fromInput, createWithBalanceUpdates, updateBalances,
      List.foldl, List.map, Option.getD, Option.map, String.reduceBEq,
      String.reduceEq, beq_self_eq_true, dir_cd, dir_dc]
    norm_num
  obtain ⟨hid, _, _, hentry, _⟩ := C10_response_shape (fun _ => "gen")
    ⟨[⟨"c1", "C", 0, .debit⟩, ⟨"c2", "D", 0, .credit⟩], []⟩
    ⟨none, none,
      [⟨some "e1", "c1", 10, .debit⟩, ⟨none, "c2", 10, .credit⟩]⟩
    ⟨[⟨"c1", "C", 10, .debit⟩, ⟨"c2", "D", 10, .credit⟩],
      [⟨"gen", "", [⟨"e1", "gen", "c1", 10, .debit⟩,
        ⟨"gen", "gen", "c2", 10, .credit⟩]⟩]⟩
    ⟨"gen", "", [⟨"e1", "c1", 10, .debit⟩, ⟨"gen", "c2", 10, .credit⟩]⟩
    hok
  obtain ⟨r, hr, _, _, _, hrid⟩ := hentry 1 ⟨none, "c2", 10, .credit⟩ rfl
  exact ⟨hid, r, hr, hrid⟩

end DoubleLedger
